import Mathlib

/-!
Verification of the PINA graph-construction subsystem (`pina/graph.py`) and
the PINN training-step orchestration (`pina/solvers/pinns/basepinn.py`)
against its natural-language specification.

Shallow embedding conventions:
* tensors are modelled by `Tens`, nested rational lists tagged with their
  number of dimensions (torch `ndim`); a `LabelTensor` carries a plain-tensor
  view and behaves as a tensor in every `isinstance` check the modelled code
  performs, so it is represented by the same constructor;
* arbitrary Python values reaching `x` / `pos` / `edge_index` are modelled by
  `PyVal`: a tensor, a Python `list`, some other iterable that is not a list
  (e.g. a tuple), or a non-iterable non-tensor object;
* exceptions are modelled by `Except ErrKind`;
* in-place dictionary mutation (`additional_params[param] = ...`) is modelled
  by threading the dictionary contents through the loop; since the code
  mutates the caller's object and returns it, the resulting association list
  is simultaneously the returned value and the caller-visible contents.
-/

/-- A torch tensor of rationals, tagged by `ndim` (0- to 3-dimensional). -/
inductive Tens where
  | d0 : ℚ → Tens
  | d1 : List ℚ → Tens
  | d2 : List (List ℚ) → Tens
  | d3 : List (List (List ℚ)) → Tens
deriving DecidableEq

/-- `torch.Tensor.ndim`. -/
def Tens.ndim : Tens → ℕ
  | .d0 _ => 0
  | .d1 _ => 1
  | .d2 _ => 2
  | .d3 _ => 3

/-- A Python value as it may reach the `Graph` constructor arguments
`x`, `pos`, `edge_index`: a (possibly labelled) tensor, a `list`, a
non-list iterable (e.g. a tuple), or a non-iterable object. -/
inductive PyVal where
  | tens : Tens → PyVal
  | list : List PyVal → PyVal
  | otherIter : List PyVal → PyVal
  | other : PyVal

/-- `isinstance(v, list)`. -/
def PyVal.isList : PyVal → Bool
  | .list _ => true
  | _ => false

/-- `isinstance(v, (torch.Tensor, LabelTensor))`. -/
def PyVal.isTens : PyVal → Bool
  | .tens _ => true
  | _ => false

/-- A value of the `additional_params` dictionary: a tensor or a list of
tensors (the two cases `Graph._check_additional_params` accepts), or any
other object (rejected with a `TypeError`). -/
inductive PVal where
  | tens : Tens → PVal
  | plist : List Tens → PVal
  | other : PVal
deriving DecidableEq

/-- The kinds of exceptions the modelled code can raise.  The spec's error
taxonomy additionally names a `ShapeMismatchError`; it is listed here so
that statements about which exception class is raised can be expressed. -/
inductive ErrKind where
  | typeError
  | valueError
  | indexError
  | shapeMismatchError
deriving DecidableEq

/-- One `torch_geometric.data.Data` record as assembled by
`Graph._build_graph_list`: the per-graph slices of `x`, `pos`,
`edge_index`, the optional `edge_attr`, and the per-graph additional
parameters. -/
structure GraphData where
  x : PyVal
  pos : PyVal
  edge_index : PyVal
  edge_attr : Option PyVal
  params : List (String × Tens)

/-- Result of a `Graph(...)` construction: the list of assembled records
(`self.data`) together with the contents of the caller's
`additional_params` dictionary after construction (the code mutates that
dictionary in place, see `Graph._check_additional_params`). -/
structure GraphOut where
  data : List GraphData
  callerParams : List (String × PVal)

/-- `Graph._check_input_consistency` on one argument: a 3-D tensor is split
along its leading axis into a Python list of 2-D tensors; everything else
is returned unchanged. -/
def splitIf3D : PyVal → PyVal
  | .tens (.d3 v) => .list (v.map (fun m => PyVal.tens (Tens.d2 m)))
  | v => v

/-- `Graph._check_len_consistency`: determines the number of graphs
(`data_len`) from `x` and `pos`, raising `ValueError` when both are lists
of different lengths. -/
def check_len_consistency (x pos : PyVal) : Except ErrKind ℕ :=
  match x, pos with
  | .list xs, .list ps =>
    if xs.length ≠ ps.length then .error .valueError
    else .ok (max xs.length ps.length)
  | .list xs, _ => .ok xs.length
  | _, .list ps => .ok ps.length
  | _, _ => .ok 1

/-- The per-value normalisation performed by the body of the loop in
`Graph._check_additional_params` on a tensor value `val`:
a 3-D tensor is split along axis 0; a 2-D tensor is replicated `data_len`
times; a 1-D tensor of length `data_len` is split into scalars, any other
1-D tensor is replicated `data_len` times.  The code has no branch for any
other `ndim`, so e.g. a 0-D tensor is left unchanged. -/
def normTens (n : ℕ) (t : Tens) : PVal :=
  match t with
  | .d3 v => .plist (v.map Tens.d2)
  | .d2 v => .plist (List.replicate n (Tens.d2 v))
  | .d1 v =>
    if v.length = n then .plist (v.map Tens.d0)
    else .plist (List.replicate n (Tens.d1 v))
  | .d0 q => .tens (.d0 q)

/-- `additional_params[param] = v`: in-place overwrite of the value stored
under an existing key of the dictionary. -/
def setKey (d : List (String × PVal)) (k : String) (v : PVal) :
    List (String × PVal) :=
  d.map (fun p => if p.1 = k then (p.1, v) else p)

/-- The loop `for param, val in additional_params.items()` of
`Graph._check_additional_params`: iterates over the items of the
dictionary, overwriting each tensor value in place with its normalised
form, accepting list values as given, and raising `TypeError` on any other
value.  `d` is the current dictionary contents, the second argument the
items still to visit. -/
def check_params_loop (n : ℕ) :
    List (String × PVal) → List (String × PVal) →
    Except ErrKind (List (String × PVal))
  | d, [] => .ok d
  | d, (k, v) :: rest =>
    match v with
    | .tens t => check_params_loop n (setKey d k (normTens n t)) rest
    | .plist _ => check_params_loop n d rest
    | .other => .error .typeError

/-- `Graph._check_additional_params`: `None` becomes an empty mapping; a
dictionary is traversed by `check_params_loop` (the code then returns the
same — mutated — dictionary object). -/
def check_additional_params (ap : Option (List (String × PVal))) (n : ℕ) :
    Except ErrKind (List (String × PVal)) :=
  match ap with
  | none => .ok []
  | some d => check_params_loop n d d

/-- The `if`/`elif` chain of `Graph.__init__` (lines 68-84) that broadcasts
`x`, `pos` and `edge_index` to aligned per-graph containers:
list `x` + tensor `pos` replicates `pos` and `edge_index`; tensor + tensor
wraps all three in one-element lists; tensor `x` + list `pos` replicates
`x`; when neither `x` nor `pos` is a list (and they were not both tensors)
a `TypeError` is raised; any remaining combination falls through
unchanged. -/
def branchNormalize (x pos ei : PyVal) (n : ℕ) :
    Except ErrKind (PyVal × PyVal × PyVal) :=
  if x.isList && pos.isTens then
    .ok (x, .list (List.replicate n pos), .list (List.replicate n ei))
  else if x.isTens && pos.isTens then
    .ok (.list [x], .list [pos], .list [ei])
  else if x.isTens && pos.isList then
    .ok (.list (List.replicate n x), pos, ei)
  else if !x.isList && !pos.isList then
    .error .typeError
  else
    .ok (x, pos, ei)

/-- Iterating a Python value (as `zip` and list comprehensions do):
lists and other iterables yield their elements, a tensor yields its
sub-tensors along the leading axis, and iterating a 0-D tensor or a
non-iterable object raises `TypeError`. -/
def toIterList : PyVal → Except ErrKind (List PyVal)
  | .list l => .ok l
  | .otherIter l => .ok l
  | .tens (.d3 v) => .ok (v.map (fun m => PyVal.tens (Tens.d2 m)))
  | .tens (.d2 v) => .ok (v.map (fun r => PyVal.tens (Tens.d1 r)))
  | .tens (.d1 v) => .ok (v.map (fun q => PyVal.tens (Tens.d0 q)))
  | .tens (.d0 _) => .error .typeError
  | .other => .error .typeError

/-- Row gather `pos[idx]` for a 2-D `pos` and a 1-D index tensor whose
entries are (rational-encoded) integers. -/
def gatherRows (rows : List (List ℚ)) (idx : List ℚ) : List (List ℚ) :=
  idx.map (fun i => rows.getD i.num.toNat [])

/-- `Graph._build_edge_attr` (the default builder):
`torch.abs(pos[edge_index[0]] - pos[edge_index[1]])`, the element-wise
absolute difference of the endpoint positions of every edge.  Only the
well-formed case (2-D positions, 2-D edge index) is meaningful; on any
other shape the real code would fail inside torch indexing, modelled here
by the non-tensor result. -/
def build_edge_attr_default (x p e : PyVal) : PyVal :=
  match p, e with
  | .tens (.d2 rows), .tens (.d2 (r0 :: r1 :: _)) =>
    .tens (.d2 (((gatherRows rows r0).zip (gatherRows rows r1)).map
      (fun ab => (ab.1.zip ab.2).map (fun c => |c.1 - c.2|))))
  | _, _ => .other

/-- `Graph._check_and_build_edge_attr`: a provided `edge_attr` that is a
list must have length `data_len` (else `ValueError`); the resolved value is
then `[edge_attr] * data_len` — note that the code replicates the *whole*
provided value, also when it is already a list.  With no `edge_attr` and
`build_edge_attr=True`, the default builder runs once per
`zip(pos, edge_index)` element; otherwise the result is `None` (the
function falls off its end). -/
def check_and_build_edge_attr (edge_attr : Option PyVal) (build : Bool)
    (n : ℕ) (ei pos x : PyVal) : Except ErrKind (Option (List PyVal)) :=
  match edge_attr with
  | some ea =>
    match ea with
    | .list l =>
      if l.length ≠ n then .error .valueError
      else .ok (some (List.replicate n ea))
    | _ => .ok (some (List.replicate n ea))
  | none =>
    if build then do
      let ps ← toIterList pos
      let es ← toIterList ei
      .ok (some ((ps.zip es).map (fun pe => build_edge_attr_default x pe.1 pe.2)))
    else .ok none

/-- Subscripting an additional-parameter value `v[i]` inside
`Graph._build_graph_list`: indexes a list of tensors or slices a tensor
along its leading axis; out-of-range access raises `IndexError`, as does
subscripting a 0-D tensor. -/
def PVal.index : PVal → ℕ → Except ErrKind Tens
  | .plist l, i =>
    match l.get? i with
    | some t => .ok t
    | none => .error .indexError
  | .tens t, i =>
    match t with
    | .d0 _ => .error .indexError
    | .d1 v => (match v.get? i with
      | some q => .ok (.d0 q)
      | none => .error .indexError)
    | .d2 v => (match v.get? i with
      | some r => .ok (.d1 r)
      | none => .error .indexError)
    | .d3 v => (match v.get? i with
      | some m => .ok (.d2 m)
      | none => .error .indexError)
  | .other, _ => .error .typeError

/-- `Graph._build_graph_list`: iterates `zip(x, pos, edge_index)`
(truncating to the shortest, as Python `zip` does), extracts each
additional parameter's `i`-th slice, attaches `edge_attr[i]` when edge
attributes were resolved, and assembles one record per index.  A
`LabelTensor` feature is unwrapped to its plain-tensor view, which is the
identity in this model. -/
def build_graph_list (x pos ei : PyVal) (edge_attr : Option (List PyVal))
    (params : List (String × PVal)) : Except ErrKind (List GraphData) := do
  let xs ← toIterList x
  let ps ← toIterList pos
  let es ← toIterList ei
  let triples := xs.zip (ps.zip es)
  triples.enum.mapM (fun it => do
    let i := it.1
    let x_ := it.2.1
    let pos_ := it.2.2.1
    let ei_ := it.2.2.2
    let localParams ← params.mapM (fun kv => do
      let t ← PVal.index kv.2 i
      pure (kv.1, t))
    match edge_attr with
    | some l =>
      match l.get? i with
      | some e => pure ⟨x_, pos_, ei_, some e, localParams⟩
      | none => .error .indexError
    | none => pure ⟨x_, pos_, ei_, none, localParams⟩)

/-- `Graph.__init__` with `undirected=False` and no custom edge-attribute
builder (the defaults; no analysed claim exercises those parameters):
input 3-D splitting, graph-count determination, additional-parameter
normalisation (mutating the caller's dictionary), input broadcasting,
edge-attribute resolution, and record assembly, in source order. -/
def graph_init (x₀ pos₀ ei₀ : PyVal) (edge_attr : Option PyVal)
    (build : Bool) (ap : Option (List (String × PVal))) :
    Except ErrKind GraphOut := do
  let x := splitIf3D x₀
  let pos := splitIf3D pos₀
  let ei := splitIf3D ei₀
  let n ← check_len_consistency x pos
  let params ← check_additional_params ap n
  let xpe ← branchNormalize x pos ei n
  let ea ← check_and_build_edge_attr edge_attr build n xpe.2.2 xpe.2.1 xpe.1
  let recs ← build_graph_list xpe.1 xpe.2.1 xpe.2.2 ea params
  .ok ⟨recs, params⟩

/-- The normalised form of one `additional_params` value, as described by
the spec of `Graph._check_additional_params`: a tensor is replaced by its
list-of-tensors form (`normTens`), a list is kept as given. -/
def normParamVal (n : ℕ) : PVal → PVal
  | .tens t => normTens n t
  | .plist l => .plist l
  | .other => .other

/-- Squared Euclidean distance between two points (rows).  `torch.cdist`
computes the Euclidean distance; since `√` is monotone, every comparison
and ordering the modelled code performs on distances coincides with the
same comparison on squared distances, which stay rational. -/
def sqdist (p q : List ℚ) : ℚ :=
  ((p.zip q).map (fun a => (a.1 - a.2) ^ 2)).sum

/-- `RadiusGraph._radius_graph(points, r)`: all ordered pairs `(i, j)` with
`dist(pᵢ, pⱼ) ≤ r`, in the row-major order `torch.nonzero` produces.  For
real `r`, `dist ≤ r` holds iff `0 ≤ r` and `dist² ≤ r²`, which is the
rational test used here. -/
def radius_graph (pts : List (List ℚ)) (r : ℚ) : List (ℕ × ℕ) :=
  (((List.range pts.length).map (fun i =>
    (List.range pts.length).map (fun j => (i, j)))).flatten).filter
    (fun e => decide (0 ≤ r) &&
      decide (sqdist (pts.getD e.1 []) (pts.getD e.2 []) ≤ r * r))

/-- The ascending-distance ordering of node indices around node `i` used to
model `torch.topk(dist, k+1, largest=False)`: a stable sort of all indices
by their (squared) distance from `pts[i]`.  `topk` returns its results
sorted by value; its tie-break among equal distances is unspecified, and
the insertion sort fixes one admissible tie-break. -/
def sortedByDist (pts : List (List ℚ)) (i : ℕ) : List ℕ :=
  List.insertionSort
    (fun a b => sqdist (pts.getD i []) (pts.getD a []) ≤
                sqdist (pts.getD i []) (pts.getD b []))
    (List.range pts.length)

/-- The neighbour list of node `i` in `KNNGraph._knn_graph`:
`torch.topk(dist, k=k+1, largest=False).indices[:, 1:]` — the `k+1`
distance-smallest indices with the first (the zero-distance self match)
dropped. -/
def knnOf (pts : List (List ℚ)) (k : ℕ) (i : ℕ) : List ℕ :=
  ((sortedByDist pts i).take (k + 1)).drop 1

/-- `KNNGraph._knn_graph(points, k)` as the list of (source, target)
columns of the returned 2×(N·k) edge index: row `i` is repeated `k`
times (`repeat_interleave`) against its flattened neighbour list. -/
def knn_graph (pts : List (List ℚ)) (k : ℕ) : List (ℕ × ℕ) :=
  ((List.range pts.length).map (fun i =>
    (knnOf pts k i).map (fun j => (i, j)))).flatten

/-- Python `len()` on a Graph input value: length of a list or other
sized iterable, leading-axis size of a tensor; `len()` of a 0-D tensor or
of a non-iterable object raises `TypeError`. -/
def pyLen : PyVal → Except ErrKind ℕ
  | .list l => .ok l.length
  | .otherIter l => .ok l.length
  | .tens (.d1 v) => .ok v.length
  | .tens (.d2 v) => .ok v.length
  | .tens (.d3 v) => .ok v.length
  | .tens (.d0 _) => .error .typeError
  | .other => .error .typeError

/-- A 2×E integer edge-index tensor built from an edge list (the shape
`torch.stack([row, col])` returns). -/
def edgesToTens (es : List (ℕ × ℕ)) : Tens :=
  .d2 [es.map (fun e => (e.1 : ℚ)), es.map (fun e => (e.2 : ℚ))]

/-- `TemporalGraph._check_time_consistency`: raises `ValueError` when the
positions and times have different lengths. -/
def check_time_consistency (posLen tLen : ℕ) : Except ErrKind Unit :=
  if posLen ≠ tLen then .error .valueError else .ok ()

/-- `TemporalGraph.__init__`: splits 3-D inputs, builds a per-graph radius
edge index when none is given, forms `additional_params = {'t': t}`,
validates the positions/times lengths, and delegates to `Graph.__init__`.
The time argument is modelled as a list of tensors (`len(t)` is its
length). -/
def temporal_graph_init (x₀ pos₀ : PyVal) (t : List Tens)
    (edge_index : Option PyVal) (edge_attr : Option PyVal) (build : Bool)
    (r : ℚ) : Except ErrKind GraphOut := do
  let x := splitIf3D x₀
  let pos := splitIf3D pos₀
  let ei ← match edge_index with
    | some e => pure (splitIf3D e)
    | none => do
      let ps ← toIterList pos
      let rows ← ps.mapM (fun p =>
        match p with
        | .tens (.d2 v) => Except.ok v
        | _ => Except.error ErrKind.typeError)
      pure (PyVal.list (rows.map (fun v =>
        PyVal.tens (edgesToTens (radius_graph v r)))))
  let ap := [("t", PVal.plist t)]
  let posLen ← pyLen pos
  let _ ← check_time_consistency posLen t.length
  graph_init x pos ei edge_attr build (some ap)

/-!  Embedding of `PINNInterface` (`pina/solvers/pinns/basepinn.py`).

The solver's models, loss function and per-condition equations are
external collaborators; they enter the model as abstract functions:
`lossData input output` is `self.loss_data(input_pts, output_pts)` and
`lossPhys input name` is `self.loss_phys(input_pts.requires_grad_(),
self.problem.conditions[name].equation)` (both return the scalar loss
value).  Unknown inverse-problem parameters live in an association list of
in-place tensor values; `range_` is
`self.problem.unknown_parameter_domain.range_`. -/

/-- The points of one batch condition: `input_points` and the optional
`output_points`. -/
structure CondPoints where
  input_points : Tens
  output_points : Option Tens
deriving DecidableEq

/-- The loss the loop body of `PINNInterface.training_step` /
`validation_step` computes for one `(condition_name, points)` pair:
data loss when `output_points` is present, physics loss otherwise. -/
def condLoss (lossData : Tens → Tens → ℚ) (lossPhys : Tens → String → ℚ)
    (c : String × CondPoints) : ℚ :=
  match c.2.output_points with
  | some out => lossData c.2.input_points out
  | none => lossPhys c.2.input_points c.1

/-- The `condition_loss` list accumulated by the loop of
`PINNInterface.training_step` (and identically by `validation_step`): each
iteration appends `loss_` inside the `if`/`else` branch and then appends
the same `loss_` once more after the branch, so every condition's loss
enters the list twice. -/
def condition_loss_list (lossData : Tens → Tens → ℚ)
    (lossPhys : Tens → String → ℚ) (batch : List (String × CondPoints)) :
    List ℚ :=
  (batch.map (fun c =>
    [condLoss lossData lossPhys c, condLoss lossData lossPhys c])).flatten

/-- `torch.Tensor.clamp_(lo, hi)`: applies the lower bound, then the upper
bound. -/
def clampQ (x lo hi : ℚ) : ℚ := min (max x lo) hi

/-- `PINNInterface._clamp_inverse_problem_params`: clamps every unknown
parameter's in-place value into its declared domain range. -/
def clamp_params (range_ : String → ℚ × ℚ) (params : List (String × ℚ)) :
    List (String × ℚ) :=
  params.map (fun p => (p.1, clampQ p.2 (range_ p.1).1 (range_ p.1).2))

/-- Observable events of one solver step, in execution order: the
invocation of `self._clamp_params()` and calls to `self.log`. -/
inductive Ev where
  | clampCall : Ev
  | logCall : String → ℚ → Ev
deriving DecidableEq

/-- `PINNInterface.training_step`: accumulates the per-condition losses
(each twice, following the source), invokes `self._clamp_params()` — which
clamps the unknown parameters when the problem is an inverse problem and
is a no-op (`lambda: None`) otherwise — computes `loss = sum(...)`, logs
it under `train_loss`, and returns it.  The result is the returned loss,
the parameter values after the step, and the event trace. -/
def training_step (isInverse : Bool) (range_ : String → ℚ × ℚ)
    (lossData : Tens → Tens → ℚ) (lossPhys : Tens → String → ℚ)
    (batch : List (String × CondPoints)) (params : List (String × ℚ)) :
    ℚ × List (String × ℚ) × List Ev :=
  let condition_loss := condition_loss_list lossData lossPhys batch
  let params' := if isInverse then clamp_params range_ params else params
  let loss := condition_loss.sum
  (loss, params', [Ev.clampCall, Ev.logCall "train_loss" loss])

/-- `PINNInterface.validation_step`: identical loss accumulation (again
appending every condition's loss twice), but the source contains no call
to `self._clamp_params()` (only a comment), computes `loss = sum(...)` and
logs it under `val_loss`; the method returns `None`.  The result is the
parameter values after the step and the event trace. -/
def validation_step (lossData : Tens → Tens → ℚ)
    (lossPhys : Tens → String → ℚ) (batch : List (String × CondPoints))
    (params : List (String × ℚ)) : List (String × ℚ) × List Ev :=
  let condition_loss := condition_loss_list lossData lossPhys batch
  let loss := condition_loss.sum
  (params, [Ev.logCall "val_loss" loss])

/-! ## Supporting lemmas -/

theorem mapM_enumFrom_ok {α β : Type} (g : α → β)
    {f : ℕ × α → Except ErrKind β} (hf : ∀ it, f it = .ok (g it.2)) :
    ∀ (l : List α) (st : ℕ),
      (List.enumFrom st l).mapM f = .ok (l.map g) := by
  intro l
  induction l with
  | nil => intro st; rfl
  | cons a t ih =>
    intro st
    show List.mapM f ((st, a) :: List.enumFrom (st + 1) t) = _
    rw [List.mapM_cons, hf, ih]
    rfl

theorem build_graph_list_lists (xs ps es : List PyVal) :
    build_graph_list (.list xs) (.list ps) (.list es) none [] =
      .ok ((xs.zip (ps.zip es)).map
        (fun t => ⟨t.1, t.2.1, t.2.2, none, []⟩)) := by
  show (xs.zip (ps.zip es)).enum.mapM _ = _
  exact mapM_enumFrom_ok
    (fun t : PyVal × PyVal × PyVal =>
      (⟨t.1, t.2.1, t.2.2, none, []⟩ : GraphData))
    (fun it => rfl) _ 0

theorem graph_init_lists (xs ps es : List PyVal) (h : xs.length = ps.length) :
    graph_init (.list xs) (.list ps) (.list es) none false none =
      .ok ⟨(xs.zip (ps.zip es)).map (fun t => ⟨t.1, t.2.1, t.2.2, none, []⟩),
           []⟩ := by
  show (check_len_consistency (.list xs) (.list ps)).bind _ = _
  rw [show check_len_consistency (.list xs) (.list ps)
        = .ok (max xs.length ps.length) from if_neg (by simp [h])]
  show (build_graph_list (.list xs) (.list ps) (.list es) none []).bind _ = _
  rw [build_graph_list_lists]
  rfl

/-- C5: for list-valued `x` and `pos` of equal length `L` (and an
`edge_index` list of length `L`) the constructor builds exactly `L`
records; for lists of unequal length it raises the length-mismatch
`ValueError` and builds nothing. -/
theorem C5_list_inputs_record_count (xs ps es : List PyVal) :
    (xs.length = ps.length → es.length = xs.length →
      ∃ g, graph_init (.list xs) (.list ps) (.list es) none false none =
             .ok g ∧ g.data.length = xs.length) ∧
    (xs.length ≠ ps.length →
      graph_init (.list xs) (.list ps) (.list es) none false none =
        .error .valueError) := by
  constructor
  · intro h he
    refine ⟨_, graph_init_lists xs ps es h, ?_⟩
    simp [List.length_zip, h, he]
  · intro h
    show (check_len_consistency (.list xs) (.list ps)).bind _ = _
    rw [show check_len_consistency (.list xs) (.list ps)
          = .error .valueError from if_pos h]
    rfl

/-- Witness for C5 at concrete inputs: two equal-length lists give two
records; lists of lengths 1 and 2 give the `ValueError`. -/
theorem C5_witness :
    (∃ g, graph_init
        (.list [.tens (.d2 [[1]]), .tens (.d2 [[2]])])
        (.list [.tens (.d2 [[0]]), .tens (.d2 [[3]])])
        (.list [.tens (.d2 [[0], [0]]), .tens (.d2 [[0], [0]])])
        none false none = .ok g ∧ g.data.length = 2) ∧
    graph_init (.list [.tens (.d2 [[1]])])
      (.list [.tens (.d2 [[0]]), .tens (.d2 [[3]])])
      (.list []) none false none = .error .valueError :=
  ⟨(C5_list_inputs_record_count _ _ _).1 rfl rfl,
   (C5_list_inputs_record_count _ _ _).2 (by decide)⟩

theorem check_params_loop_error_kind (n : ℕ) :
    ∀ (items d : List (String × PVal)) (e : ErrKind),
      check_params_loop n d items = .error e → e = .typeError := by
  intro items
  induction items with
  | nil => intro d e h; exact absurd h (by simp [check_params_loop])
  | cons kv rest ih =>
    intro d e h
    match hv : kv.2 with
    | .tens t =>
      rw [show kv = (kv.1, kv.2) from rfl, hv] at h
      exact ih _ _ h
    | .plist l =>
      rw [show kv = (kv.1, kv.2) from rfl, hv] at h
      exact ih _ _ h
    | .other =>
      rw [show kv = (kv.1, kv.2) from rfl, hv] at h
      simp [check_params_loop] at h
      exact h.symm

theorem check_additional_params_error_kind (ap : Option (List (String × PVal)))
    (n : ℕ) (e : ErrKind) (h : check_additional_params ap n = .error e) :
    e = .typeError := by
  match ap with
  | none => exact absurd h (by simp [check_additional_params])
  | some d => exact check_params_loop_error_kind n d d e h

/-- C4 (amended): after 3-D splitting, the constructor's explicit type
check raises `TypeError` exactly in the cases in which neither `x` nor
`pos` is a list and they are not both tensors; this theorem proves the
error direction for every `edge_attr` / `build_edge_attr` /
`additional_params` argument. -/
theorem C4_typeError_when_neither_list (x pos ei : PyVal)
    (ea : Option PyVal) (b : Bool) (ap : Option (List (String × PVal)))
    (h1 : (splitIf3D x).isList = false)
    (h2 : (splitIf3D pos).isList = false)
    (h3 : ((splitIf3D x).isTens && (splitIf3D pos).isTens) = false) :
    graph_init x pos ei ea b ap = .error .typeError := by
  show (check_len_consistency (splitIf3D x) (splitIf3D pos)).bind _ = _
  have hn : check_len_consistency (splitIf3D x) (splitIf3D pos) = .ok 1 := by
    rcases hx : splitIf3D x with t | l | l | _ <;>
      rcases hp : splitIf3D pos with t' | l' | l' | _ <;>
        simp_all [check_len_consistency, PyVal.isList]
  rw [hn]
  show (check_additional_params ap 1).bind _ = _
  rcases hap : check_additional_params ap 1 with e | params
  · rw [check_additional_params_error_kind ap 1 e hap]
    rfl
  · show (branchNormalize (splitIf3D x) (splitIf3D pos) (splitIf3D ei) 1).bind _ = _
    rw [show branchNormalize (splitIf3D x) (splitIf3D pos) (splitIf3D ei) 1
          = .error .typeError by
        simp only [branchNormalize, h1, h2, h3, Bool.false_and, Bool.not_false]
        rw [if_neg (by simp [h1]), if_neg (by simp [h3]),
            if_neg (by simp [h2]), if_pos (by simp [h1, h2])]]
    rfl

/-- C4 counterexample: `pos` a tuple (neither tensor, labelled tensor, nor
list) of one position tensor with `x` a one-element list — construction
succeeds, no `TypeError` is raised. -/
theorem C4_counterexample :
    graph_init (.list [.tens (.d2 [[0, 0]])])
        (.otherIter [.tens (.d2 [[0, 0]])])
        (.list [.tens (.d2 [[0], [0]])]) none false none ≠
      .error .typeError ∧
    (PyVal.otherIter [.tens (.d2 [[0, 0]])]).isTens = false ∧
    (PyVal.otherIter [.tens (.d2 [[0, 0]])]).isList = false := by
  refine ⟨fun h => ?_, rfl, rfl⟩
  have hok : (graph_init (.list [.tens (.d2 [[0, 0]])])
      (.otherIter [.tens (.d2 [[0, 0]])])
      (.list [.tens (.d2 [[0], [0]])]) none false none).isOk = true := rfl
  rw [h] at hok
  exact Bool.noConfusion hok

/-- Witness for C4 (amended) at a concrete input: a tensor `x` with a
non-iterable non-tensor `pos` raises `TypeError`. -/
theorem C4_witness :
    (splitIf3D (.tens (.d2 [[0]]))).isList = false ∧
    (splitIf3D PyVal.other).isList = false ∧
    ((splitIf3D (.tens (.d2 [[0]]))).isTens &&
      (splitIf3D PyVal.other).isTens) = false ∧
    graph_init (.tens (.d2 [[0]])) .other (.tens (.d2 [[0], [0]]))
      none false none = .error .typeError :=
  ⟨rfl, rfl, rfl,
   C4_typeError_when_neither_list _ _ _ _ _ _ rfl rfl rfl⟩

/-- C3: evaluation of the constructor at a two-graph input with a provided
two-element `edge_attr` list.  The code replicates the *whole* list, so
each record's `edge_attr` is the entire provided list rather than its
`i`-th tensor — contradicting both the spec and the pointless length check
immediately preceding the replication. -/
theorem C3_list_edge_attr_replicated_whole :
    graph_init (.list [.tens (.d2 [[1]]), .tens (.d2 [[2]])])
        (.list [.tens (.d2 [[0]]), .tens (.d2 [[3]])])
        (.list [.tens (.d2 [[0], [0]]), .tens (.d2 [[0], [0]])])
        (some (.list [.tens (.d2 [[5]]), .tens (.d2 [[7]])])) false none
      = .ok ⟨[⟨.tens (.d2 [[1]]), .tens (.d2 [[0]]), .tens (.d2 [[0], [0]]),
               some (.list [.tens (.d2 [[5]]), .tens (.d2 [[7]])]), []⟩,
              ⟨.tens (.d2 [[2]]), .tens (.d2 [[3]]), .tens (.d2 [[0], [0]]),
               some (.list [.tens (.d2 [[5]]), .tens (.d2 [[7]])]), []⟩],
             []⟩
    ∧ PyVal.list [.tens (.d2 [[5]]), .tens (.d2 [[7]])] ≠
        PyVal.tens (.d2 [[5]]) :=
  ⟨rfl, fun h => PyVal.noConfusion h⟩

theorem splitIf3D_idem (v : PyVal) : splitIf3D (splitIf3D v) = splitIf3D v := by
  rcases v with t | l | l | _
  · rcases t with q | v1 | v2 | v3 <;> rfl
  · rfl
  · rfl
  · rfl

theorem graph_init_split_left (x pos ei : PyVal) (ea : Option PyVal)
    (b : Bool) (ap : Option (List (String × PVal))) :
    graph_init (splitIf3D x) pos ei ea b ap = graph_init x pos ei ea b ap := by
  show (check_len_consistency (splitIf3D (splitIf3D x)) _).bind _ = _
  rw [splitIf3D_idem]
  rfl

theorem graph_init_split_ei (x pos ei : PyVal) (ea : Option PyVal)
    (b : Bool) (ap : Option (List (String × PVal))) :
    graph_init x pos (splitIf3D ei) ea b ap = graph_init x pos ei ea b ap := by
  show (check_len_consistency (splitIf3D x) (splitIf3D pos)).bind _ = _
  rw [show splitIf3D (splitIf3D ei) = splitIf3D ei from splitIf3D_idem ei]
  rfl

/-- C8 (amended): `TemporalGraph` with a list of positions and an explicit
edge index raises `ValueError` (not the spec's `ShapeMismatchError`) when
the positions and times lists have different lengths — before delegating
to the base constructor — and delegates to the base constructor with
`additional_params = {'t': t}` when the lengths agree. -/
theorem C8_temporal_length_check (x : PyVal) (pos : List PyVal)
    (t : List Tens) (ei : PyVal) (ea : Option PyVal) (b : Bool) (r : ℚ) :
    (pos.length ≠ t.length →
      temporal_graph_init x (.list pos) t (some ei) ea b r =
        .error .valueError) ∧
    (pos.length = t.length →
      temporal_graph_init x (.list pos) t (some ei) ea b r =
        graph_init x (.list pos) ei ea b (some [("t", PVal.plist t)])) := by
  constructor
  · intro h
    show (check_time_consistency pos.length t.length).bind _ = _
    rw [show check_time_consistency pos.length t.length
          = .error .valueError from if_pos h]
    rfl
  · intro h
    show (check_time_consistency pos.length t.length).bind _ = _
    rw [show check_time_consistency pos.length t.length
          = .ok () from if_neg (by simp [h])]
    show graph_init (splitIf3D x) (.list pos) (splitIf3D ei) ea b _ = _
    rw [graph_init_split_left, graph_init_split_ei]

/-- Witness for C8 (amended): a two-element positions list against a
one-element times list raises `ValueError`; with a second time value the
construction delegates and succeeds. -/
theorem C8_witness :
    temporal_graph_init (.tens (.d2 [[0]]))
        (.list [.tens (.d2 [[0]]), .tens (.d2 [[1]])]) [.d0 0]
        (some (.list [.tens (.d2 [[0], [0]]), .tens (.d2 [[0], [0]])]))
        none false 0 = .error .valueError ∧
    temporal_graph_init (.tens (.d2 [[0]]))
        (.list [.tens (.d2 [[0]]), .tens (.d2 [[1]])]) [.d0 0, .d0 1]
        (some (.list [.tens (.d2 [[0], [0]]), .tens (.d2 [[0], [0]])]))
        none false 0 =
      graph_init (.tens (.d2 [[0]]))
        (.list [.tens (.d2 [[0]]), .tens (.d2 [[1]])])
        (.list [.tens (.d2 [[0], [0]]), .tens (.d2 [[0], [0]])])
        none false (some [("t", PVal.plist [.d0 0, .d0 1])]) :=
  ⟨(C8_temporal_length_check _ _ _ _ _ _ _).1 (by decide),
   (C8_temporal_length_check _ _ _ _ _ _ _).2 rfl⟩

/-- C8 counterexample to the claim as stated: at the mismatched input the
raised error is `ValueError`, not `ShapeMismatchError`. -/
theorem C8_counterexample :
    temporal_graph_init (.tens (.d2 [[0]]))
        (.list [.tens (.d2 [[0]]), .tens (.d2 [[1]])]) [.d0 0]
        (some (.list [.tens (.d2 [[0], [0]]), .tens (.d2 [[0], [0]])]))
        none false 0 ≠ .error .shapeMismatchError := by
  intro h
  have hv : (Except.error ErrKind.valueError :
      Except ErrKind GraphOut) = .error .shapeMismatchError := by
    rw [← h]
    rfl
  injection hv with hv'
  exact absurd hv' (by decide)

theorem setKey_append (a b : List (String × PVal)) (k : String) (v : PVal) :
    setKey (a ++ b) k v = setKey a k v ++ setKey b k v :=
  List.map_append _ a b

theorem setKey_of_not_mem (k : String) (v : PVal) :
    ∀ l : List (String × PVal), k ∉ l.map Prod.fst → setKey l k v = l := by
  intro l
  induction l with
  | nil => intro _; rfl
  | cons p t ih =>
    intro h
    rw [List.map_cons, List.mem_cons] at h
    push_neg at h
    show (if p.1 = k then (p.1, v) else p) :: setKey t k v = p :: t
    rw [if_neg (fun hh => h.1 hh.symm), ih h.2]

theorem setKey_cons_self (k : String) (v v' : PVal)
    (t : List (String × PVal)) :
    setKey ((k, v') :: t) k v = (k, v) :: setKey t k v := by
  show (if k = k then (k, v) else (k, v')) :: setKey t k v = _
  rw [if_pos rfl]

theorem check_params_loop_append (n : ℕ) :
    ∀ (rest done : List (String × PVal)),
      (((done ++ rest).map Prod.fst).Nodup) →
      (∀ p ∈ rest, p.2 ≠ PVal.other) →
      check_params_loop n (done ++ rest) rest =
        .ok (done ++ rest.map (fun p => (p.1, normParamVal n p.2))) := by
  intro rest
  induction rest with
  | nil => intro done _ _; simp [check_params_loop]
  | cons kv rs ih =>
    intro done hnd hv
    obtain ⟨k, v⟩ := kv
    have hkeys : (done ++ (k, v) :: rs).map Prod.fst =
        done.map Prod.fst ++ k :: rs.map Prod.fst := by simp
    rw [hkeys] at hnd
    have hnd' := List.nodup_append.mp hnd
    have hk_done : k ∉ done.map Prod.fst := by
      intro hk
      exact hnd'.2.2 hk (List.mem_cons_self _ _)
    have hk_rs : k ∉ rs.map Prod.fst := (List.nodup_cons.mp hnd'.2.1).1
    match hv0 : v with
    | .other => exact absurd rfl (hv (k, .other) (List.mem_cons_self _ _))
    | .tens t =>
      show check_params_loop n
        (setKey (done ++ (k, PVal.tens t) :: rs) k (normTens n t)) rs = _
      rw [setKey_append, setKey_of_not_mem _ _ done hk_done,
          setKey_cons_self, setKey_of_not_mem _ _ rs hk_rs]
      have := ih (done ++ [(k, normTens n t)])
        (by simpa using hnd)
        (fun p hp => hv p (List.mem_cons_of_mem _ hp))
      rw [List.append_assoc] at this
      rw [show done ++ (k, normTens n t) :: rs =
            done ++ [(k, normTens n t)] ++ rs by simp, List.append_assoc,
          this]
      simp [normParamVal]
    | .plist l =>
      show check_params_loop n (done ++ (k, PVal.plist l) :: rs) rs = _
      have := ih (done ++ [(k, PVal.plist l)])
        (by simpa using hnd)
        (fun p hp => hv p (List.mem_cons_of_mem _ hp))
      rw [List.append_assoc] at this
      rw [show done ++ (k, PVal.plist l) :: rs =
            done ++ [(k, PVal.plist l)] ++ rs by simp, List.append_assoc,
          this]
      simp [normParamVal]

theorem check_additional_params_eq_map (n : ℕ) (d : List (String × PVal))
    (hnd : (d.map Prod.fst).Nodup) (hv : ∀ p ∈ d, p.2 ≠ PVal.other) :
    check_additional_params (some d) n =
      .ok (d.map (fun p => (p.1, normParamVal n p.2))) := by
  have := check_params_loop_append n d [] (by simpa using hnd) hv
  simpa using this

theorem graph_init_callerParams (x pos ei : PyVal) (ea : Option PyVal)
    (b : Bool) (ap : Option (List (String × PVal))) (g : GraphOut)
    (n : ℕ) (hn : check_len_consistency (splitIf3D x) (splitIf3D pos) = .ok n)
    (h : graph_init x pos ei ea b ap = .ok g) :
    check_additional_params ap n = .ok g.callerParams := by
  revert h
  show ((check_len_consistency (splitIf3D x) (splitIf3D pos)).bind _)
      = .ok g → _
  rw [hn]
  show ((check_additional_params ap n).bind _) = .ok g → _
  rcases hap : check_additional_params ap n with e | params
  · intro h
    exact Except.noConfusion h
  · show ((branchNormalize (splitIf3D x) (splitIf3D pos) (splitIf3D ei) n).bind _)
        = .ok g → _
    rcases hb : branchNormalize (splitIf3D x) (splitIf3D pos) (splitIf3D ei) n
      with e | xpe
    · intro h
      exact Except.noConfusion h
    · show ((check_and_build_edge_attr ea b n xpe.2.2 xpe.2.1 xpe.1).bind _)
          = .ok g → _
      rcases he : check_and_build_edge_attr ea b n xpe.2.2 xpe.2.1 xpe.1
        with e | ea'
      · intro h
        exact Except.noConfusion h
      · show ((build_graph_list xpe.1 xpe.2.1 xpe.2.2 ea' params).bind _)
            = .ok g → _
        rcases hr : build_graph_list xpe.1 xpe.2.1 xpe.2.2 ea' params
          with e | recs
        · intro h
          exact Except.noConfusion h
        · intro h
          injection h with h'
          rw [← h']

/-- C10: `Graph._check_additional_params` overwrites, in the caller's own
dictionary, every tensor value with its normalised list-of-tensors form
(values that are already lists are untouched); the association list in the
result of construction is exactly the caller-visible, mutated dictionary
content.  Tensor values are restricted to `ndim ∈ {1,2,3}` — the only
shapes for which the code defines a normalised form. -/
theorem C10_params_mutated_in_place (n : ℕ) (d : List (String × PVal))
    (hnd : (d.map Prod.fst).Nodup)
    (hv : ∀ p ∈ d, (∃ t : Tens, p.2 = .tens t ∧ 1 ≤ t.ndim) ∨
      ∃ l, p.2 = .plist l) :
    check_additional_params (some d) n =
      .ok (d.map (fun p => (p.1, normParamVal n p.2))) ∧
    (∀ p ∈ d, ∀ t : Tens, p.2 = .tens t →
      ∃ l, normParamVal n p.2 = .plist l) ∧
    (∀ x pos ei ea b g,
      check_len_consistency (splitIf3D x) (splitIf3D pos) = .ok n →
      graph_init x pos ei ea b (some d) = .ok g →
      g.callerParams = d.map (fun p => (p.1, normParamVal n p.2))) := by
  have hv' : ∀ p ∈ d, p.2 ≠ PVal.other := by
    intro p hp hc
    rcases hv p hp with ⟨t, ht, _⟩ | ⟨l, hl⟩
    · rw [hc] at ht; exact PVal.noConfusion ht
    · rw [hc] at hl; exact PVal.noConfusion hl
  have hmain := check_additional_params_eq_map n d hnd hv'
  refine ⟨hmain, ?_, ?_⟩
  · intro p hp t ht
    have hdim : 1 ≤ t.ndim := by
      rcases hv p hp with ⟨t', ht', hd⟩ | ⟨l, hl⟩
      · rw [ht] at ht'
        injection ht' with h2
        rw [h2]
        exact hd
      · rw [ht] at hl; exact PVal.noConfusion hl
    rw [ht]
    show ∃ l, normTens n t = .plist l
    match t, hdim with
    | .d1 v, _ =>
      by_cases hc : v.length = n
      · exact ⟨v.map Tens.d0, by simp [normTens, hc]⟩
      · exact ⟨List.replicate n (Tens.d1 v), by simp [normTens, hc]⟩
    | .d2 v, _ => exact ⟨_, rfl⟩
    | .d3 v, _ => exact ⟨_, rfl⟩
  · intro x pos ei ea b g hn hg
    have := graph_init_callerParams x pos ei ea b (some d) g n hn hg
    rw [hmain] at this
    injection this with h'
    rw [h']

/-- Witness for C10 at a concrete dictionary: a 1-D tensor value of
matching length is overwritten with the list of its scalar slices, a list
value is kept. -/
theorem C10_witness :
    check_additional_params
        (some [("a", PVal.tens (.d1 [1, 2])), ("b", PVal.plist [.d0 5])]) 2 =
      .ok [("a", PVal.plist [.d0 1, .d0 2]), ("b", PVal.plist [.d0 5])] := by
  have h := (C10_params_mutated_in_place 2
    [("a", PVal.tens (.d1 [1, 2])), ("b", PVal.plist [.d0 5])]
    (by decide)
    (by
      intro p hp
      rcases List.mem_cons.mp hp with h1 | h1
      · subst h1
        exact Or.inl ⟨.d1 [1, 2], rfl, by decide⟩
      · rcases List.mem_cons.mp h1 with h2 | h2
        · subst h2
          exact Or.inr ⟨[.d0 5], rfl⟩
        · exact absurd h2 (List.not_mem_nil p))).1
  rw [h]
  rfl

theorem condition_loss_list_sum (lossData : Tens → Tens → ℚ)
    (lossPhys : Tens → String → ℚ) (batch : List (String × CondPoints)) :
    (condition_loss_list lossData lossPhys batch).sum =
      2 * (batch.map (condLoss lossData lossPhys)).sum := by
  induction batch with
  | nil => simp [condition_loss_list]
  | cons c t ih =>
    simp only [condition_loss_list, List.map_cons, List.flatten_cons,
      List.sum_append, List.sum_cons, List.sum_nil] at *
    rw [ih]
    ring

/-- C1: the total loss returned by `PINNInterface.training_step` is NOT
the sum of the per-condition losses: the loop appends every condition's
loss twice (once inside the `if`/`else` branch, once right after it), so
the returned value is twice that sum.  At the spec's own example — two
conditions with constant losses 1.0 and 2.0 — the code returns 6.0, not
3.0. -/
theorem C1_training_step_loss_doubled :
    (∀ (lossData : Tens → Tens → ℚ) (lossPhys : Tens → String → ℚ)
       (batch : List (String × CondPoints)) (inv : Bool)
       (range_ : String → ℚ × ℚ) (params : List (String × ℚ)),
      (training_step inv range_ lossData lossPhys batch params).1 =
        2 * (batch.map (condLoss lossData lossPhys)).sum) ∧
    (training_step false (fun _ => (0, 0)) (fun _ _ => 1) (fun _ _ => 2)
        [("data_cond", ⟨.d0 0, some (.d0 0)⟩), ("phys_cond", ⟨.d0 0, none⟩)]
        []).1 = 6 ∧ (6 : ℚ) ≠ 1 + 2 := by
  refine ⟨?_, by norm_num [training_step, condition_loss_list, condLoss],
    by norm_num⟩
  intro lossData lossPhys batch inv range_ params
  exact condition_loss_list_sum lossData lossPhys batch

/-- C2 (amended): in every training step the clamping routine is invoked —
once, after all conditions are processed and before the loss is logged —
and the parameters end up clamped exactly when the problem is an inverse
problem; in a validation step no clamping invocation occurs (the source
carries only a comment) and the parameters are left untouched. -/
theorem C2_clamp_in_training_only (inv : Bool) (range_ : String → ℚ × ℚ)
    (lossData : Tens → Tens → ℚ) (lossPhys : Tens → String → ℚ)
    (batch : List (String × CondPoints)) (params : List (String × ℚ)) :
    ((training_step inv range_ lossData lossPhys batch params).2.2 =
        [Ev.clampCall,
         Ev.logCall "train_loss" (condition_loss_list lossData lossPhys batch).sum] ∧
      (training_step inv range_ lossData lossPhys batch params).2.1 =
        (if inv then clamp_params range_ params else params)) ∧
    ((validation_step lossData lossPhys batch params).2 =
        [Ev.logCall "val_loss" (condition_loss_list lossData lossPhys batch).sum] ∧
      Ev.clampCall ∉ (validation_step lossData lossPhys batch params).2 ∧
      (validation_step lossData lossPhys batch params).1 = params) := by
  refine ⟨⟨rfl, rfl⟩, rfl, ?_, rfl⟩
  intro h
  rcases List.mem_cons.mp h with h1 | h1
  · exact Ev.noConfusion h1
  · exact absurd h1 (List.not_mem_nil _)

/-- Witness for C2 (amended) at a concrete inverse-problem state: the
training step clamps the out-of-range parameter and logs after the clamp
event; the validation step leaves it out of range. -/
theorem C2_witness :
    ((training_step true (fun _ => (0, 1)) (fun _ _ => 1) (fun _ _ => 1)
        [("c", ⟨.d0 0, some (.d0 0)⟩)] [("mu", 5)]).2.2 =
      [Ev.clampCall, Ev.logCall "train_loss" 2] ∧
     (training_step true (fun _ => (0, 1)) (fun _ _ => 1) (fun _ _ => 1)
        [("c", ⟨.d0 0, some (.d0 0)⟩)] [("mu", 5)]).2.1 =
      (if true then clamp_params (fun _ => (0, 1)) [("mu", 5)]
       else [("mu", 5)])) ∧
    ((validation_step (fun _ _ => 1) (fun _ _ => 1)
        [("c", ⟨.d0 0, some (.d0 0)⟩)] [("mu", 5)]).2 =
      [Ev.logCall "val_loss" 2] ∧
     Ev.clampCall ∉ (validation_step (fun _ _ => 1) (fun _ _ => 1)
        [("c", ⟨.d0 0, some (.d0 0)⟩)] [("mu", 5)]).2 ∧
     (validation_step (fun _ _ => 1) (fun _ _ => 1)
        [("c", ⟨.d0 0, some (.d0 0)⟩)] [("mu", 5)]).1 = [("mu", 5)]) := by
  have h := C2_clamp_in_training_only true (fun _ => (0, 1)) (fun _ _ => 1)
    (fun _ _ => 1) [("c", ⟨.d0 0, some (.d0 0)⟩)] [("mu", 5)]
  have hs : (condition_loss_list (fun _ _ => (1 : ℚ)) (fun _ _ => (1 : ℚ))
      [("c", ⟨.d0 0, some (.d0 0)⟩)]).sum = 2 := by
    norm_num [condition_loss_list, condLoss]
  rw [hs] at h
  exact h

/-- C2 counterexample to the claim as stated: a validation step on an
inverse problem performs no clamp invocation and leaves the out-of-range
parameter value 5 outside its range `[0, 1]` — although one clamp call
would have moved it to 1. -/
theorem C2_counterexample :
    Ev.clampCall ∉ (validation_step (fun _ _ => 1) (fun _ _ => 1)
        [("c", ⟨.d0 0, some (.d0 0)⟩)] [("mu", 5)]).2 ∧
    (validation_step (fun _ _ => 1) (fun _ _ => 1)
        [("c", ⟨.d0 0, some (.d0 0)⟩)] [("mu", 5)]).1 = [("mu", 5)] ∧
    clamp_params (fun _ => (0, 1)) [("mu", 5)] = [("mu", 1)] ∧
    ¬((0 : ℚ) ≤ 5 ∧ (5 : ℚ) ≤ 1) := by
  refine ⟨?_, rfl, by decide, by norm_num⟩
  intro h
  rcases List.mem_cons.mp h with h1 | h1
  · exact Ev.noConfusion h1
  · exact absurd h1 (List.not_mem_nil _)

/-- C9: one invocation of
`PINNInterface._clamp_inverse_problem_params` brings every unknown
parameter into its declared closed range — values below `low` become
`low`, values above `high` become `high`, in-range values are unchanged —
and the routine is idempotent. -/
theorem C9_clamp_correct_and_idempotent (range_ : String → ℚ × ℚ)
    (params : List (String × ℚ))
    (h : ∀ p ∈ params, (range_ p.1).1 ≤ (range_ p.1).2) :
    (∀ p ∈ clamp_params range_ params,
      (range_ p.1).1 ≤ p.2 ∧ p.2 ≤ (range_ p.1).2) ∧
    clamp_params range_ params = params.map (fun p =>
      (p.1, if p.2 < (range_ p.1).1 then (range_ p.1).1
            else if (range_ p.1).2 < p.2 then (range_ p.1).2 else p.2)) ∧
    clamp_params range_ (clamp_params range_ params) =
      clamp_params range_ params := by
  refine ⟨?_, ?_, ?_⟩
  · intro p hp
    rcases List.mem_map.mp hp with ⟨q, hq, hpq⟩
    have hlh := h q hq
    rw [← hpq]
    constructor
    · exact le_min (le_max_right _ _) hlh
    · exact min_le_right _ _
  · apply List.map_congr_left
    intro q hq
    have hlh := h q hq
    show (q.1, clampQ q.2 (range_ q.1).1 (range_ q.1).2) = _
    by_cases h1 : q.2 < (range_ q.1).1
    · rw [if_pos h1]
      unfold clampQ
      rw [max_eq_right (le_of_lt h1), min_eq_left hlh]
    · rw [if_neg h1]
      push_neg at h1
      by_cases h2 : (range_ q.1).2 < q.2
      · rw [if_pos h2]
        unfold clampQ
        rw [max_eq_left h1, min_eq_right (le_of_lt h2)]
      · rw [if_neg h2]
        push_neg at h2
        unfold clampQ
        rw [max_eq_left h1, min_eq_left h2]
  · unfold clamp_params
    rw [List.map_map]
    apply List.map_congr_left
    intro q hq
    have hlh := h q hq
    show (q.1, clampQ (clampQ q.2 _ _) (range_ q.1).1 (range_ q.1).2) = _
    have hlo : (range_ q.1).1 ≤ clampQ q.2 (range_ q.1).1 (range_ q.1).2 :=
      le_min (le_max_right _ _) hlh
    have hhi : clampQ q.2 (range_ q.1).1 (range_ q.1).2 ≤ (range_ q.1).2 :=
      min_le_right _ _
    show (q.1, min (max _ _) _) = _
    rw [max_eq_left hlo, min_eq_left hhi]

/-- Witness for C9 at concrete values: with range `[0, 1]`, the values
5, -3 and 1/2 clamp to 1, 0 and 1/2 respectively, and clamping again
changes nothing. -/
theorem C9_witness :
    (∀ p ∈ clamp_params (fun _ => ((0 : ℚ), (1 : ℚ)))
        [("a", 5), ("b", -3), ("c", 1/2)],
      ((fun (_ : String) => ((0 : ℚ), (1 : ℚ))) p.1).1 ≤ p.2 ∧
        p.2 ≤ ((fun (_ : String) => ((0 : ℚ), (1 : ℚ))) p.1).2) ∧
    clamp_params (fun _ => ((0 : ℚ), (1 : ℚ)))
        [("a", 5), ("b", -3), ("c", 1/2)] =
      [("a", 5), ("b", -3), ("c", 1/2)].map (fun p =>
        (p.1, if p.2 < ((fun (_ : String) => ((0 : ℚ), (1 : ℚ))) p.1).1
              then ((fun (_ : String) => ((0 : ℚ), (1 : ℚ))) p.1).1
              else if ((fun (_ : String) => ((0 : ℚ), (1 : ℚ))) p.1).2 < p.2
              then ((fun (_ : String) => ((0 : ℚ), (1 : ℚ))) p.1).2
              else p.2)) ∧
    clamp_params (fun _ => ((0 : ℚ), (1 : ℚ)))
        (clamp_params (fun _ => ((0 : ℚ), (1 : ℚ)))
          [("a", 5), ("b", -3), ("c", 1/2)]) =
      clamp_params (fun _ => ((0 : ℚ), (1 : ℚ)))
        [("a", 5), ("b", -3), ("c", 1/2)] :=
  C9_clamp_correct_and_idempotent (fun _ => ((0 : ℚ), (1 : ℚ)))
    [("a", 5), ("b", -3), ("c", 1/2)] (by decide)

theorem sqdist_self (p : List ℚ) : sqdist p p = 0 := by
  induction p with
  | nil => rfl
  | cons a t ih =>
    unfold sqdist at ih ⊢
    rw [List.zip_cons_cons, List.map_cons, List.sum_cons, ih]
    ring

theorem sqdist_nonneg (p q : List ℚ) : 0 ≤ sqdist p q := by
  apply List.sum_nonneg
  intro x hx
  rcases List.mem_map.mp hx with ⟨a, _, ha⟩
  rw [← ha]
  exact sq_nonneg _

theorem sqdist_pos (p : List ℚ) :
    ∀ q : List ℚ, p.length = q.length → p ≠ q → 0 < sqdist p q := by
  induction p with
  | nil =>
    intro q hl hne
    rcases q with _ | ⟨b, s⟩
    · exact absurd rfl hne
    · exact absurd hl (by simp)
  | cons a t ih =>
    intro q hl hne
    rcases q with _ | ⟨b, s⟩
    · exact absurd hl (by simp)
    · unfold sqdist
      rw [List.zip_cons_cons, List.map_cons, List.sum_cons]
      by_cases hab : a = b
      · subst hab
        have hts : t ≠ s := fun h => hne (by rw [h])
        have := ih s (by simpa using hl) hts
        have h0 : (a - a) ^ 2 = 0 := by ring
        rw [h0, zero_add]
        exact this
      · have h1 : 0 < (a - b) ^ 2 :=
          pow_two_pos_of_ne_zero (sub_ne_zero.mpr hab)
        exact add_pos_of_pos_of_nonneg h1 (sqdist_nonneg t s)

theorem getD_ne_of_nodup (pts : List (List ℚ)) (hnd : pts.Nodup)
    (i j : ℕ) (hi : i < pts.length) (hj : j < pts.length) (hij : i ≠ j) :
    pts.getD i [] ≠ pts.getD j [] := by
  rw [List.getD_eq_getElem _ _ hi, List.getD_eq_getElem _ _ hj]
  intro h
  have := List.Nodup.get_inj_iff hnd (i := ⟨i, hi⟩) (j := ⟨j, hj⟩)
  rw [List.get_eq_getElem, List.get_eq_getElem] at this
  have hf := this.mp h
  exact hij (congrArg Fin.val hf)

theorem range_filter_eq_singleton (i : ℕ) :
    ∀ n : ℕ, i < n →
      (List.range n).filter (fun j => decide (j = i)) = [i] := by
  intro n
  induction n with
  | zero => intro h; exact absurd h (by omega)
  | succ m ih =>
    intro h
    rw [List.range_succ, List.filter_append]
    by_cases hm : i = m
    · subst hm
      have h1 : (List.range i).filter (fun j => decide (j = i)) = [] := by
        rw [List.filter_eq_nil_iff]
        intro a ha
        have := List.mem_range.mp ha
        simp only [decide_eq_true_eq]
        omega
      rw [h1]
      simp
    · have h2 : i < m := by omega
      rw [ih h2]
      have h3 : List.filter (fun j => decide (j = i)) [m] = [] := by
        simp [Ne.symm hm]
      rw [h3, List.append_nil]

theorem flatten_map_singleton {α β : Type} (g : α → β) :
    ∀ l : List α, (l.map (fun a => [g a])).flatten = l.map g := by
  intro l
  induction l with
  | nil => rfl
  | cons a t ih => simp [ih]

theorem radius_row_filter_zero (pts : List (List ℚ)) (hnd : pts.Nodup)
    (hdim : ∀ p ∈ pts, ∀ q ∈ pts, p.length = q.length)
    (i : ℕ) (hiN : i < pts.length) :
    ((List.range pts.length).map (fun j => (i, j))).filter
        (fun e => decide ((0 : ℚ) ≤ 0) &&
          decide (sqdist (pts.getD e.1 []) (pts.getD e.2 []) ≤ 0 * 0)) =
      [(i, i)] := by
  rw [List.filter_map]
  have hcong : (List.range pts.length).filter
      ((fun e => decide ((0 : ℚ) ≤ 0) &&
        decide (sqdist (pts.getD e.1 []) (pts.getD e.2 []) ≤ 0 * 0)) ∘
        (fun j => (i, j))) =
      (List.range pts.length).filter (fun j => decide (j = i)) := by
    apply List.filter_congr
    intro j hj
    have hjN := List.mem_range.mp hj
    show (decide ((0 : ℚ) ≤ 0) &&
      decide (sqdist (pts.getD i []) (pts.getD j []) ≤ 0 * 0)) = _
    rw [show (decide ((0 : ℚ) ≤ 0)) = true from by decide, Bool.true_and,
        mul_zero]
    rcases eq_or_ne j i with hji | hji
    · subst hji
      rw [sqdist_self]
      simp
    · have hne : pts.getD i [] ≠ pts.getD j [] :=
        getD_ne_of_nodup pts hnd i j hiN hjN (Ne.symm hji)
      have hpos : 0 < sqdist (pts.getD i []) (pts.getD j []) := by
        apply sqdist_pos
        · apply hdim
          · rw [List.getD_eq_getElem _ _ hiN]
            exact List.getElem_mem hiN
          · rw [List.getD_eq_getElem _ _ hjN]
            exact List.getElem_mem hjN
        · exact hne
      rw [decide_eq_false (not_le.mpr hpos), decide_eq_false hji]
  rw [hcong, range_filter_eq_singleton i pts.length hiN]
  rfl

/-- C7: the radius edge builder with `r = 0` on pairwise-distinct points
returns exactly the `N` self-loop edges `(i, i)`, one per point and in
index order; and for every nonnegative radius every self-loop is among
the returned edges, since each point is at distance `0` from itself. -/
theorem C7_radius_zero_only_self_loops (pts : List (List ℚ))
    (hnd : pts.Nodup)
    (hdim : ∀ p ∈ pts, ∀ q ∈ pts, p.length = q.length) :
    radius_graph pts 0 = (List.range pts.length).map (fun i => (i, i)) ∧
    (∀ r : ℚ, 0 ≤ r → ∀ i, i < pts.length → (i, i) ∈ radius_graph pts r) := by
  constructor
  · unfold radius_graph
    rw [List.filter_flatten, List.map_map]
    have hrow : ∀ i ∈ List.range pts.length,
        (List.filter (fun e => decide ((0 : ℚ) ≤ 0) &&
            decide (sqdist (pts.getD e.1 []) (pts.getD e.2 []) ≤ 0 * 0)) ∘
          fun i => (List.range pts.length).map (fun j => (i, j))) i =
          [(i, i)] := by
      intro i hi
      exact radius_row_filter_zero pts hnd hdim i (List.mem_range.mp hi)
    rw [List.map_congr_left hrow, flatten_map_singleton]
  · intro r hr i hi
    apply List.mem_filter.mpr
    constructor
    · apply List.mem_flatten.mpr
      refine ⟨(List.range pts.length).map (fun j => (i, j)), ?_, ?_⟩
      · exact List.mem_map_of_mem _ (List.mem_range.mpr hi)
      · exact List.mem_map_of_mem _ (List.mem_range.mpr hi)
    · show (decide (0 ≤ r) && decide (sqdist _ _ ≤ r * r)) = true
      rw [decide_eq_true hr, Bool.true_and, sqdist_self]
      exact decide_eq_true (mul_self_nonneg r)

/-- Witness for C7 at two distinct 1-D points. -/
theorem C7_witness :
    radius_graph [[0], [2]] 0 =
      (List.range ([[0], [2]] : List (List ℚ)).length).map (fun i => (i, i)) ∧
    (∀ r : ℚ, 0 ≤ r → ∀ i, i < ([[0], [2]] : List (List ℚ)).length →
      (i, i) ∈ radius_graph [[0], [2]] r) :=
  C7_radius_zero_only_self_loops [[0], [2]] (by decide) (by decide)

theorem sortedByDist_structure (pts : List (List ℚ)) (hnd : pts.Nodup)
    (hdim : ∀ p ∈ pts, ∀ q ∈ pts, p.length = q.length)
    (i : ℕ) (hiN : i < pts.length) :
    ∃ rest : List ℕ, sortedByDist pts i = i :: rest ∧ i ∉ rest ∧
      rest.length = pts.length - 1 ∧ (∀ j ∈ rest, j < pts.length) ∧
      List.Pairwise (fun a b => sqdist (pts.getD i []) (pts.getD a []) ≤
        sqdist (pts.getD i []) (pts.getD b [])) rest := by
  haveI inst1 : IsTotal ℕ (fun a b =>
      sqdist (pts.getD i []) (pts.getD a []) ≤
        sqdist (pts.getD i []) (pts.getD b [])) :=
    ⟨fun a b => le_total _ _⟩
  haveI inst2 : IsTrans ℕ (fun a b =>
      sqdist (pts.getD i []) (pts.getD a []) ≤
        sqdist (pts.getD i []) (pts.getD b [])) :=
    ⟨fun a b c hab hbc => le_trans hab hbc⟩
  have hsorted : List.Sorted (fun a b =>
      sqdist (pts.getD i []) (pts.getD a []) ≤
        sqdist (pts.getD i []) (pts.getD b [])) (sortedByDist pts i) :=
    List.sorted_insertionSort _ _
  have hperm : (sortedByDist pts i).Perm (List.range pts.length) :=
    List.perm_insertionSort _ _
  have hnodupS : (sortedByDist pts i).Nodup :=
    hperm.symm.nodup (List.nodup_range _)
  have hiS : i ∈ sortedByDist pts i :=
    hperm.mem_iff.mpr (List.mem_range.mpr hiN)
  rcases hseq : sortedByDist pts i with _ | ⟨z, rest⟩
  · rw [hseq] at hiS
    exact absurd hiS (List.not_mem_nil i)
  · rw [hseq] at hsorted hperm hnodupS hiS
    have hzN : z < pts.length :=
      List.mem_range.mp (hperm.mem_iff.mp (List.mem_cons_self z rest))
    have hzi : z = i := by
      by_contra hzi
      have hir : i ∈ rest := by
        rcases List.mem_cons.mp hiS with h | h
        · exact absurd h.symm hzi
        · exact h
      have hrel := List.rel_of_sorted_cons hsorted i hir
      have hne : pts.getD i [] ≠ pts.getD z [] :=
        getD_ne_of_nodup pts hnd i z hiN hzN (fun h => hzi h.symm)
      have hdz : 0 < sqdist (pts.getD i []) (pts.getD z []) := by
        apply sqdist_pos
        · apply hdim
          · rw [List.getD_eq_getElem _ _ hiN]
            exact List.getElem_mem hiN
          · rw [List.getD_eq_getElem _ _ hzN]
            exact List.getElem_mem hzN
        · exact hne
      rw [sqdist_self] at hrel
      exact absurd hrel (not_le.mpr hdz)
    subst hzi
    refine ⟨rest, rfl, (List.nodup_cons.mp hnodupS).1, ?_, ?_, ?_⟩
    · have := hperm.length_eq
      rw [List.length_range] at this
      simp only [List.length_cons] at this
      omega
    · intro j hj
      exact List.mem_range.mp
        (hperm.mem_iff.mp (List.mem_cons_of_mem _ hj))
    · exact hsorted.of_cons

theorem knnOf_of_head (pts : List (List ℚ)) (k i : ℕ) (rest : List ℕ)
    (hseq : sortedByDist pts i = i :: rest) :
    knnOf pts k i = rest.take k := by
  unfold knnOf
  rw [hseq, List.take_succ_cons]
  rfl

theorem filter_flatten_by_source (f : ℕ → List ℕ) (i : ℕ) :
    ∀ l : List ℕ, l.Nodup → i ∈ l →
      ((l.map (fun a => (f a).map (fun j => (a, j)))).flatten).filter
          (fun e => decide (e.1 = i)) = (f i).map (fun j => (i, j)) := by
  intro l
  induction l with
  | nil => intro _ h; exact absurd h (List.not_mem_nil i)
  | cons a t ih =>
    intro hnd hmem
    rw [List.map_cons, List.flatten_cons, List.filter_append]
    have hnd' := List.nodup_cons.mp hnd
    rcases List.mem_cons.mp hmem with hia | hit
    · subst hia
      have h1 : List.filter (fun e => decide (e.1 = i))
          ((f i).map (fun j => (i, j))) = (f i).map (fun j => (i, j)) := by
        rw [List.filter_map]
        have hp : ((fun e : ℕ × ℕ => decide (e.1 = i)) ∘ fun j => (i, j)) =
            (fun _ => true) := by
          funext j
          simp
        rw [hp, List.filter_true]
      have h2 : List.filter (fun e => decide (e.1 = i))
          ((t.map (fun a => (f a).map (fun j => (a, j)))).flatten) = [] := by
        rw [List.filter_eq_nil_iff]
        intro e he
        rcases List.mem_flatten.mp he with ⟨blk, hblk, hein⟩
        rcases List.mem_map.mp hblk with ⟨b, hbt, rfl⟩
        rcases List.mem_map.mp hein with ⟨j, hjb, rfl⟩
        simp only [decide_eq_true_eq]
        intro hc
        exact hnd'.1 (hc ▸ hbt)
      rw [h1, h2, List.append_nil]
    · have hai : ¬(a = i) := fun h => hnd'.1 (h ▸ hit)
      have h1 : List.filter (fun e => decide (e.1 = i))
          ((f a).map (fun j => (a, j))) = [] := by
        rw [List.filter_eq_nil_iff]
        intro e he
        rcases List.mem_map.mp he with ⟨j, hj, rfl⟩
        simp only [decide_eq_true_eq]
        exact hai
      rw [h1, ih hnd'.2 hit, List.nil_append]

/-- C6: on `N` pairwise-distinct equal-dimension points with `k < N`, the
KNN edge builder returns exactly `N·k` edges; none is a self-loop; the
edges with source `i` are exactly `i` paired (repeated-interleaved) with
its `k`-element neighbour list; and every chosen neighbour of `i` is at
most as far from `i` as any other point that was not chosen — the `k`
nearest other points (under the sort's tie-break). -/
theorem C6_knn_graph_properties (pts : List (List ℚ)) (k : ℕ)
    (hk : k < pts.length) (hnd : pts.Nodup)
    (hdim : ∀ p ∈ pts, ∀ q ∈ pts, p.length = q.length) :
    (knn_graph pts k).length = pts.length * k ∧
    (∀ e ∈ knn_graph pts k, e.1 ≠ e.2) ∧
    (∀ i, i < pts.length →
      (knn_graph pts k).filter (fun e => decide (e.1 = i)) =
        (knnOf pts k i).map (fun j => (i, j)) ∧
      (knnOf pts k i).length = k ∧
      (∀ j ∈ knnOf pts k i, j < pts.length ∧ j ≠ i) ∧
      (∀ j ∈ knnOf pts k i, ∀ jq, jq < pts.length → jq ∉ knnOf pts k i →
        jq ≠ i →
        sqdist (pts.getD i []) (pts.getD j []) ≤
          sqdist (pts.getD i []) (pts.getD jq []))) := by
  have hknnlen : ∀ i, i < pts.length → (knnOf pts k i).length = k := by
    intro i hi
    obtain ⟨rest, hseq, _, hlenr, _, _⟩ :=
      sortedByDist_structure pts hnd hdim i hi
    rw [knnOf_of_head pts k i rest hseq, List.length_take]
    omega
  refine ⟨?_, ?_, ?_⟩
  · unfold knn_graph
    rw [List.length_flatten, List.map_map]
    have hcc : ∀ j ∈ List.range pts.length,
        (List.length ∘ fun i => (knnOf pts k i).map fun j => (i, j)) j
          = k := by
      intro j hj
      show ((knnOf pts k j).map _).length = k
      rw [List.length_map]
      exact hknnlen j (List.mem_range.mp hj)
    rw [List.map_congr_left hcc, List.map_const', List.sum_replicate,
        List.length_range, smul_eq_mul]
  · intro e he
    rcases List.mem_flatten.mp he with ⟨blk, hblk, hein⟩
    rcases List.mem_map.mp hblk with ⟨i, hirange, rfl⟩
    rcases List.mem_map.mp hein with ⟨j, hj, rfl⟩
    obtain ⟨rest, hseq, hnotmem, _, _, _⟩ :=
      sortedByDist_structure pts hnd hdim i (List.mem_range.mp hirange)
    rw [knnOf_of_head pts k i rest hseq] at hj
    have hjrest : j ∈ rest := List.take_subset k rest hj
    exact fun h => hnotmem ((show i = j from h).symm ▸ hjrest)
  · intro i hi
    obtain ⟨rest, hseq, hnotmem, hlenr, hmemr, hpw⟩ :=
      sortedByDist_structure pts hnd hdim i hi
    have hknn := knnOf_of_head pts k i rest hseq
    refine ⟨?_, hknnlen i hi, ?_, ?_⟩
    · exact filter_flatten_by_source (knnOf pts k) i
        (List.range pts.length) (List.nodup_range _)
        (List.mem_range.mpr hi)
    · intro j hj
      rw [hknn] at hj
      have hjrest : j ∈ rest := List.take_subset k rest hj
      exact ⟨hmemr j hjrest, fun h => hnotmem (h ▸ hjrest)⟩
    · intro j hj jq hjqN hjqk hjqi
      rw [hknn] at hj hjqk
      have hjq_s : jq ∈ i :: rest := by
        rw [← hseq]
        have : (sortedByDist pts i).Perm (List.range pts.length) :=
          List.perm_insertionSort _ _
        exact this.mem_iff.mpr (List.mem_range.mpr hjqN)
      have hjq_rest : jq ∈ rest := by
        rcases List.mem_cons.mp hjq_s with h | h
        · exact absurd h hjqi
        · exact h
      have hjq_drop : jq ∈ rest.drop k := by
        have := (List.take_append_drop k rest) ▸ hjq_rest
        rcases List.mem_append.mp this with h | h
        · exact absurd h hjqk
        · exact h
      have hpw' : List.Pairwise (fun a b =>
          sqdist (pts.getD i []) (pts.getD a []) ≤
            sqdist (pts.getD i []) (pts.getD b []))
          (rest.take k ++ rest.drop k) := by
        rw [List.take_append_drop]
        exact hpw
      exact (List.pairwise_append.mp hpw').2.2 j hj jq hjq_drop

/-- Witness for C6 on three distinct 1-D points with `k = 1`. -/
theorem C6_witness :
    (knn_graph [[0], [1], [3]] 1).length =
      ([[0], [1], [3]] : List (List ℚ)).length * 1 ∧
    (∀ e ∈ knn_graph [[0], [1], [3]] 1, e.1 ≠ e.2) ∧
    (∀ i, i < ([[0], [1], [3]] : List (List ℚ)).length →
      (knn_graph [[0], [1], [3]] 1).filter (fun e => decide (e.1 = i)) =
        (knnOf [[0], [1], [3]] 1 i).map (fun j => (i, j)) ∧
      (knnOf [[0], [1], [3]] 1 i).length = 1 ∧
      (∀ j ∈ knnOf [[0], [1], [3]] 1 i,
        j < ([[0], [1], [3]] : List (List ℚ)).length ∧ j ≠ i) ∧
      (∀ j ∈ knnOf [[0], [1], [3]] 1 i, ∀ jq,
        jq < ([[0], [1], [3]] : List (List ℚ)).length →
        jq ∉ knnOf [[0], [1], [3]] 1 i → jq ≠ i →
        sqdist (([[0], [1], [3]] : List (List ℚ)).getD i [])
            (([[0], [1], [3]] : List (List ℚ)).getD j []) ≤
          sqdist (([[0], [1], [3]] : List (List ℚ)).getD i [])
            (([[0], [1], [3]] : List (List ℚ)).getD jq []))) :=
  C6_knn_graph_properties [[0], [1], [3]] 1 (by decide) (by decide)
    (by decide)
